import Mathlib

/-!
Verification development for the summarization core of AI-StudyBuddy
(`src/SBCoding/text_summarizer.py`, class `BertSummarizer`).

Modelling conventions:
* Python strings are sequences of code points, modelled as `Str := List Char`.
* The only split/join separators the code uses are the literals `'. '` and `' '`;
  `splitDot` / `joinDot` / `joinSpace` model Python's `str.split('. ')`,
  `'. '.join` and `' '.join` on that fixed separator.
* The BERT embedder, the sklearn KMeans clusterer, the torch cosine-similarity
  routine and the HuggingFace summarization pipeline are external capabilities;
  they are passed as function parameters (`embedOne`, `kmeansFit`, `sim`,
  `compress`).  Fallible capabilities return `Except Str _`; a raised Python
  exception is an `Except.error` value.
* Python's float `compression_ratio` is modelled as an exact rational `ℚ`;
  its truncating `int()` conversion is computed on the num/den representation
  (`intTruncMul`) so that it is kernel-computable.
-/

set_option maxRecDepth 100000

abbrev Str := List Char

abbrev Vec := List ℚ

/-- Prepend a character to the first piece of a split (helper for `splitDot`). -/
def consHead (c : Char) : List Str → List Str
  | [] => [[c]]
  | s :: ss => (c :: s) :: ss

/-- Python `text.split('. ')`: leftmost, non-overlapping occurrences of the
two-character separator `'. '`; the empty string splits to `['']`. -/
def splitDot : Str → List Str
  | [] => [[]]
  | '.' :: ' ' :: rest => [] :: splitDot rest
  | c :: rest => consHead c (splitDot rest)

/-- Python `'. '.join(pieces)`. -/
def joinDot : List Str → Str
  | [] => []
  | [s] => s
  | s :: ss => s ++ '.' :: ' ' :: joinDot ss

/-- Python `' '.join(pieces)`. -/
def joinSpace : List Str → Str
  | [] => []
  | [s] => s
  | s :: ss => s ++ ' ' :: joinSpace ss

/-- `'. '.join(current_chunk) + '.'` — the string `_chunk_text` emits when it
flushes a sentence buffer (src/SBCoding/text_summarizer.py lines 130, 135, 141). -/
def flushChunk (current_chunk : List Str) : Str :=
  joinDot current_chunk ++ ['.']

/-- The accumulation loop of `_chunk_text` (lines 125-141).  State: the chunks
emitted so far, the current sentence buffer `current_chunk`, and
`current_length` (the running sum of raw sentence lengths — the code does not
count the `'. '` delimiters re-inserted at flush time). -/
def chunkLoop (max_chunk_size : Nat) :
    List Str → List Str → List Str → Nat → List Str
  | [], chunks, current_chunk, _ =>
      if current_chunk = [] then chunks else chunks ++ [flushChunk current_chunk]
  | sentence :: rest, chunks, current_chunk, current_length =>
      if current_length + sentence.length > max_chunk_size then
        if current_chunk = [] then
          -- single sentence exceeding max_chunk_size: emitted immediately (line 138)
          chunkLoop max_chunk_size rest (chunks ++ [sentence ++ ['.']]) [] 0
        else
          chunkLoop max_chunk_size rest (chunks ++ [flushChunk current_chunk])
            [sentence] sentence.length
      else
        chunkLoop max_chunk_size rest chunks (current_chunk ++ [sentence])
          (current_length + sentence.length)

/-- `_chunk_text(text, max_chunk_size=512)` (lines 109-143). -/
def chunk_text (text : Str) (max_chunk_size : Nat := 512) : List Str :=
  chunkLoop max_chunk_size (splitDot text) [] [] 0

/-- Companion of `chunkLoop` that records each flushed buffer as a sentence
group instead of the joined string (`chunkLoop` = this loop followed by
`flushChunk` on every group; see `chunkLoop_eq_map_flushChunk`). -/
def chunkGroupsLoop (max_chunk_size : Nat) :
    List Str → List (List Str) → List Str → Nat → List (List Str)
  | [], groups, current_chunk, _ =>
      if current_chunk = [] then groups else groups ++ [current_chunk]
  | sentence :: rest, groups, current_chunk, current_length =>
      if current_length + sentence.length > max_chunk_size then
        if current_chunk = [] then
          chunkGroupsLoop max_chunk_size rest (groups ++ [[sentence]]) [] 0
        else
          chunkGroupsLoop max_chunk_size rest (groups ++ [current_chunk])
            [sentence] sentence.length
      else
        chunkGroupsLoop max_chunk_size rest groups (current_chunk ++ [sentence])
          (current_length + sentence.length)

/-- The sentence groups underlying the chunks of `chunk_text text`. -/
def chunkGroups (text : Str) (max_chunk_size : Nat) : List (List Str) :=
  chunkGroupsLoop max_chunk_size (splitDot text) [] [] 0

/-- Invariant of every emitted sentence group: non-empty, and either the raw
sentence lengths sum within the budget or the group is a single sentence that
alone exceeds it. -/
def GoodGroup (m : Nat) (g : List Str) : Prop :=
  g ≠ [] ∧ ((g.map List.length).sum ≤ m ∨ ∃ s, g = [s] ∧ m < s.length)

/-- numpy's maximum of a list of similarity values (0 on the empty list, which
the code never queries). -/
def listMax : List ℚ → ℚ
  | [] => 0
  | x :: xs => xs.foldl max x

/-- numpy `argmax`: index of the first occurrence of the maximum. -/
def npArgmax (l : List ℚ) : Nat :=
  l.findIdx (fun x => decide (listMax l ≤ x))

/-- The clustering branch of `_select_important_sentences` (lines 85-107):
iterate cluster indices `0..num_sentences-1`; for each cluster, filter the
sentences/embeddings assigned to it, skip it if empty, otherwise emit the
member sentence whose embedding scores highest (`argmax`) against the
cluster's center.  `sim` abstracts `torch.nn.functional.cosine_similarity`. -/
def selectCore (sim : Vec → Vec → ℚ) (sentences : List Str) (embeddings : List Vec)
    (clusters : List Nat) (centers : List Vec) (num_sentences : Nat) : List Str :=
  (List.range num_sentences).foldl (fun important_sentences i =>
    let cluster_sentences :=
      ((clusters.zip sentences).filter (fun p => p.1 == i)).map (fun p => p.2)
    let cluster_embeddings :=
      ((clusters.zip embeddings).filter (fun p => p.1 == i)).map (fun p => p.2)
    if 0 < cluster_sentences.length then
      let center_distances :=
        cluster_embeddings.map (fun e => sim (centers.getD i []) e)
      let best_idx := npArgmax center_distances
      important_sentences ++ [cluster_sentences.getD best_idx []]
    else important_sentences) []

/-- `_select_important_sentences(sentences, embeddings, num_sentences)`
(lines 67-107).  `kmeansFit k embs` models
`KMeans(n_clusters=k, random_state=42).fit_predict(embs)` together with the
fitted `cluster_centers_`; it is only invoked when `len(sentences) >
num_sentences`. -/
def select_important_sentences
    (kmeansFit : Nat → List Vec → Except Str (List Nat × List Vec))
    (sim : Vec → Vec → ℚ) (sentences : List Str) (embeddings : List Vec)
    (num_sentences : Nat) : Except Str (List Str) :=
  if sentences.length ≤ num_sentences then .ok sentences
  else do
    let (clusters, centers) ← kmeansFit num_sentences embeddings
    .ok (selectCore sim sentences embeddings clusters centers num_sentences)

/-- Python truncating `int()` applied to the product `n * r`, computed on the
numerator/denominator representation: `int(n * r) = (n * r.num) tdiv r.den`
(`Int.tdiv` rounds toward zero exactly as Python's `int()`). -/
def intTruncMul (n : Nat) (r : ℚ) : Int :=
  ((n : Int) * r.num).tdiv r.den

/-- `num_sentences = max(1, int(len(sentences) * compression_ratio))`
(line 169 of `summarize`). -/
def targetCount (n : Nat) (compression_ratio : ℚ) : Nat :=
  (max 1 (intTruncMul n compression_ratio)).toNat

/-- `_get_sentence_embeddings` (lines 38-65): embed each sentence in order; a
provider error anywhere aborts the whole loop. -/
def get_sentence_embeddings (embedOne : Str → Except Str Vec) :
    List Str → Except Str (List Vec)
  | [] => .ok []
  | s :: rest => do
    let v ← embedOne s
    let vs ← get_sentence_embeddings embedOne rest
    .ok (v :: vs)

/-- The body of the per-chunk loop of `summarize` (lines 160-182): split the
chunk into sentences, embed them, select `max(1, int(n*ratio))` representative
sentences, join them with `' '` and compress abstractively.  `compress` models
`self.summarizer(...)[0]['summary_text']`. -/
def processChunk (embedOne : Str → Except Str Vec)
    (kmeansFit : Nat → List Vec → Except Str (List Nat × List Vec))
    (compress : Str → Except Str Str) (sim : Vec → Vec → ℚ)
    (compression_ratio : ℚ) (chunk : Str) : Except Str Str := do
  let sentences := splitDot chunk
  let embeddings ← get_sentence_embeddings embedOne sentences
  let num_sentences := targetCount sentences.length compression_ratio
  let important_sentences ←
    select_important_sentences kmeansFit sim sentences embeddings num_sentences
  let extractive_summary := joinSpace important_sentences
  compress extractive_summary

/-- `for chunk in chunks: ... all_summaries.append(...)` (lines 160-182); an
exception raised while processing any chunk aborts the loop. -/
def runChunks (f : Str → Except Str Str) : List Str → Except Str (List Str)
  | [] => .ok []
  | chunk :: rest => do
    let s ← f chunk
    let ss ← runChunks f rest
    .ok (s :: ss)

/-- The `metadata` dictionary of the returned result: either the success
payload (lines 188-195) or `{'error': str(e)}` (lines 199-204). -/
inductive Metadata where
  | ok (original_length summary_length : Nat) (compression_ratio : ℚ)
      (num_chunks : Nat)
  | err (error : Str)
deriving DecidableEq

/-- The dictionary returned by `summarize`: `{'summary': ..., 'metadata': ...}`. -/
structure SummaryResult where
  summary : Str
  metadata : Metadata
deriving DecidableEq

def Metadata.isErr : Metadata → Bool
  | .err _ => true
  | .ok _ _ _ _ => false

def exceptIsOk : Except Str α → Bool
  | .ok _ => true
  | .error _ => false

/-- `summarize(text, compression_ratio=0.3)` (lines 145-205).  The `try`
block covers chunking, the per-chunk pipeline and the metadata computation;
any raised exception is caught and converted to `{'summary': '',
'metadata': {'error': str(e)}}`.  `len(final_summary) / len(text)` raises
`ZeroDivisionError` when the text is empty, which the model makes explicit. -/
def summarize (embedOne : Str → Except Str Vec)
    (kmeansFit : Nat → List Vec → Except Str (List Nat × List Vec))
    (compress : Str → Except Str Str) (sim : Vec → Vec → ℚ)
    (text : Str) (compression_ratio : ℚ) : SummaryResult :=
  let run : Except Str SummaryResult := do
    let chunks := chunk_text text 512
    let all_summaries ←
      runChunks (processChunk embedOne kmeansFit compress sim compression_ratio)
        chunks
    let final_summary := joinSpace all_summaries
    if text.length = 0 then
      .error "division by zero".data
    else
      .ok { summary := final_summary
            metadata := .ok text.length final_summary.length
              ((final_summary.length : ℚ) / (text.length : ℚ)) chunks.length }
  match run with
  | .ok result => result
  | .error e => { summary := [], metadata := .err e }

/-- Cluster members with their original sentence indices, in original order
(index `j0` is the position of the first listed sentence). -/
def clusterMembersIdx (i : Nat) :
    List Nat → List Str → List Vec → Nat → List (Nat × Str × Vec)
  | c :: cl, s :: ss, e :: es, j0 =>
      if c == i then (j0, s, e) :: clusterMembersIdx i cl ss es (j0 + 1)
      else clusterMembersIdx i cl ss es (j0 + 1)
  | _, _, _, _ => []

/-- The indexed pair with the least first component (the lowest original
sentence index), `none` on the empty list. -/
def leastIdx : List (Nat × Str × Vec) → Option (Nat × Str × Vec)
  | [] => none
  | p :: rest =>
    match leastIdx rest with
    | none => some p
    | some q => if q.1 < p.1 then some q else some p

/-- Selection as worded by the spec (§4.3, claim C7): iterate cluster indices
`0..k-1`; for each non-empty cluster pick, among its assigned sentences, the
one whose embedding has maximum similarity to the cluster centroid, ties
broken by lowest original sentence index; skip empty clusters.  Stated over
the same abstract similarity `sim` as the code model. -/
def specSelect (sim : Vec → Vec → ℚ) (sentences : List Str)
    (embeddings : List Vec) (clusters : List Nat) (centers : List Vec)
    (k : Nat) : List Str :=
  (List.range k).filterMap (fun i =>
    let members := clusterMembersIdx i clusters sentences embeddings 0
    let best := listMax (members.map (fun m => sim (centers.getD i []) m.2.2))
    (leastIdx (members.filter
        (fun m => decide (sim (centers.getD i []) m.2.2 = best)))).map
      (fun m => m.2.1))

/-- Test capability: embedding succeeds with a fixed vector. -/
def okEmbed : Str → Except Str Vec := fun _ => .ok [1]

/-- Test capability: embedding provider raises on any sentence containing 'b'. -/
def failOnB : Str → Except Str Vec := fun s =>
  if s.contains 'b' then .error "embedding backend unavailable".data else .ok [1]

/-- Test capability: clustering succeeds, assigning everything to cluster 0. -/
def okKmeans : Nat → List Vec → Except Str (List Nat × List Vec) :=
  fun k vs => .ok (vs.map (fun _ => 0), List.replicate k [1])

/-- Test capability: abstractive compression echoes its input. -/
def okCompress : Str → Except Str Str := fun s => .ok s

/-- Test similarity: score an embedding by its first coordinate. -/
def simHead : Vec → Vec → ℚ := fun _ e => e.headD 0

/-- A single 120-character sentence with no internal `'. '` delimiter
(spec Scenario B, claim C9). -/
def sentence120 : Str := List.replicate 120 'a'

/-- A two-chunk input for the failure-propagation scenario: two long
sentences that `_chunk_text` (max 512) places in separate chunks. -/
def twoChunkText : Str :=
  List.replicate 300 'a' ++ '.' :: ' ' :: List.replicate 300 'b'

theorem chunkLoop_eq_map_flushChunk (m : Nat) (ss : List Str) :
    ∀ (groups : List (List Str)) (cur : List Str) (len : Nat),
      chunkLoop m ss (groups.map flushChunk) cur len =
        (chunkGroupsLoop m ss groups cur len).map flushChunk := by
  induction ss with
  | nil =>
    intro groups cur len
    by_cases h : cur = [] <;> simp [chunkLoop, chunkGroupsLoop, h]
  | cons s rest ih =>
    intro groups cur len
    simp only [chunkLoop, chunkGroupsLoop]
    by_cases h1 : len + s.length > m
    · rw [if_pos h1, if_pos h1]
      by_cases h2 : cur = []
      · rw [if_pos h2, if_pos h2,
          show groups.map flushChunk ++ [s ++ ['.']] =
            (groups ++ [[s]]).map flushChunk by simp [flushChunk, joinDot], ih]
      · rw [if_neg h2, if_neg h2,
          show groups.map flushChunk ++ [flushChunk cur] =
            (groups ++ [cur]).map flushChunk by simp, ih]
    · rw [if_neg h1, if_neg h1, ih]

theorem chunk_text_eq_map (text : Str) (m : Nat) :
    chunk_text text m = (chunkGroups text m).map flushChunk :=
  chunkLoop_eq_map_flushChunk m (splitDot text) [] [] 0

theorem chunkGroupsLoop_flatten (m : Nat) (ss : List Str) :
    ∀ (groups : List (List Str)) (cur : List Str) (len : Nat),
      (chunkGroupsLoop m ss groups cur len).flatten =
        groups.flatten ++ (cur ++ ss) := by
  induction ss with
  | nil =>
    intro groups cur len
    by_cases h : cur = [] <;> simp [chunkGroupsLoop, h]
  | cons s rest ih =>
    intro groups cur len
    simp only [chunkGroupsLoop]
    by_cases h1 : len + s.length > m
    · rw [if_pos h1]
      by_cases h2 : cur = []
      · rw [if_pos h2, ih]
        subst h2
        simp
      · rw [if_neg h2, ih]
        simp
    · rw [if_neg h1, ih]
      simp

theorem chunkGroups_flatten (text : Str) (m : Nat) :
    (chunkGroups text m).flatten = splitDot text := by
  simpa using chunkGroupsLoop_flatten m (splitDot text) [] [] 0

theorem goodGroup_of_flush (m : Nat) (cur : List Str)
    (hne : cur ≠ [])
    (hinv : cur = [] ∨ (cur.map List.length).sum ≤ m ∨ ∃ s, cur = [s]) :
    GoodGroup m cur := by
  refine ⟨hne, ?_⟩
  rcases hinv with h | h | ⟨s, rfl⟩
  · exact absurd h hne
  · exact Or.inl h
  · by_cases hs : s.length ≤ m
    · exact Or.inl (by simpa using hs)
    · exact Or.inr ⟨s, rfl, lt_of_not_ge hs⟩

theorem chunkGroupsLoop_good (m : Nat) (ss : List Str) :
    ∀ (groups : List (List Str)) (cur : List Str) (len : Nat),
      (∀ g ∈ groups, GoodGroup m g) →
      len = (cur.map List.length).sum →
      (cur = [] ∨ (cur.map List.length).sum ≤ m ∨ ∃ s, cur = [s]) →
      ∀ g ∈ chunkGroupsLoop m ss groups cur len, GoodGroup m g := by
  induction ss with
  | nil =>
    intro groups cur len hg hlen hinv g hmem
    simp only [chunkGroupsLoop] at hmem
    by_cases h : cur = []
    · rw [if_pos h] at hmem
      exact hg g hmem
    · rw [if_neg h] at hmem
      rcases List.mem_append.1 hmem with hmem | hmem
      · exact hg g hmem
      · obtain rfl := List.mem_singleton.1 hmem
        exact goodGroup_of_flush m g h hinv
  | cons s rest ih =>
    intro groups cur len hg hlen hinv g hmem
    simp only [chunkGroupsLoop] at hmem
    by_cases h1 : len + s.length > m
    · rw [if_pos h1] at hmem
      by_cases h2 : cur = []
      · rw [if_pos h2] at hmem
        subst h2
        simp only [List.map_nil, List.sum_nil] at hlen
        refine ih (groups ++ [[s]]) [] 0 ?_ rfl (Or.inl rfl) g hmem
        intro g' hg'
        rcases List.mem_append.1 hg' with h | h
        · exact hg g' h
        · obtain rfl := List.mem_singleton.1 h
          refine ⟨by simp, Or.inr ⟨s, rfl, ?_⟩⟩
          omega
      · rw [if_neg h2] at hmem
        refine ih (groups ++ [cur]) [s] s.length ?_ (by simp)
          (Or.inr (Or.inr ⟨s, rfl⟩)) g hmem
        intro g' hg'
        rcases List.mem_append.1 hg' with h | h
        · exact hg g' h
        · obtain rfl := List.mem_singleton.1 h
          exact goodGroup_of_flush m g' h2 hinv
    · rw [if_neg h1] at hmem
      refine ih groups (cur ++ [s]) (len + s.length) hg (by simp [hlen]) ?_ g hmem
      refine Or.inr (Or.inl ?_)
      simp only [List.map_append, List.sum_append, List.map_cons, List.sum_cons,
        List.map_nil, List.sum_nil]
      omega

theorem chunkGroups_good (text : Str) (m : Nat) :
    ∀ g ∈ chunkGroups text m, GoodGroup m g :=
  chunkGroupsLoop_good m (splitDot text) [] [] 0 (by simp) rfl (Or.inl rfl)

theorem except_bind_ok {α β : Type} (a : α) (f : α → Except Str β) :
    (Except.ok a >>= f) = f a := rfl

theorem except_bind_error {α β : Type} (e : Str) (f : α → Except Str β) :
    ((Except.error e : Except Str α) >>= f) = Except.error e := rfl

theorem one_le_targetCount (n : Nat) (r : ℚ) : 1 ≤ targetCount n r := by
  unfold targetCount
  have h : (1 : Int) ≤ max 1 (intTruncMul n r) := le_max_left _ _
  omega

theorem runChunks_error_of_mem (f : Str → Except Str Str) (chunks : List Str)
    (c : Str) (hc : c ∈ chunks) (hf : exceptIsOk (f c) = false) :
    ∃ e, runChunks f chunks = .error e := by
  induction chunks with
  | nil => cases hc
  | cons d rest ih =>
    rcases List.mem_cons.1 hc with rfl | hmem
    · cases hfc : f c with
      | ok v => rw [hfc] at hf; simp [exceptIsOk] at hf
      | error e => exact ⟨e, by simp [runChunks, hfc, except_bind_error]⟩
    · cases hfd : f d with
      | ok v =>
        obtain ⟨e, he⟩ := ih hmem
        exact ⟨e, by simp [runChunks, hfd, he, except_bind_ok, except_bind_error]⟩
      | error e => exact ⟨e, by simp [runChunks, hfd, except_bind_error]⟩

/-- C1: if processing any chunk (embedding, clustering/selection or
compression) raises, the whole `summarize` call returns the failure result:
empty summary plus an error description — no per-chunk summary survives,
including those of chunks processed successfully before the failure. -/
theorem claim_C1 (E : Str → Except Str Vec)
    (K : Nat → List Vec → Except Str (List Nat × List Vec))
    (C : Str → Except Str Str) (S : Vec → Vec → ℚ) (text : Str) (r : ℚ)
    (c : Str) (hc : c ∈ chunk_text text 512)
    (hf : exceptIsOk (processChunk E K C S r c) = false) :
    (summarize E K C S text r).summary = [] ∧
      ∃ e, (summarize E K C S text r).metadata = .err e := by
  obtain ⟨e, he⟩ := runChunks_error_of_mem _ _ _ hc hf
  have hsum : summarize E K C S text r = ⟨[], .err e⟩ := by
    simp only [summarize]
    rw [he]
    rfl
  rw [hsum]
  exact ⟨rfl, e, rfl⟩

/-- C1 witness: a two-chunk text whose first chunk embeds fine and whose
second chunk contains a sentence the embedder raises on. -/
theorem claim_C1_witness :
    (List.replicate 300 'b' ++ ['.'] ∈ chunk_text twoChunkText 512) ∧
      exceptIsOk (processChunk failOnB okKmeans okCompress simHead 1
        (List.replicate 300 'b' ++ ['.'])) = false ∧
      exceptIsOk (processChunk failOnB okKmeans okCompress simHead 1
        (List.replicate 300 'a' ++ ['.'])) = true ∧
      ((summarize failOnB okKmeans okCompress simHead twoChunkText 1).summary = []
        ∧ ∃ e, (summarize failOnB okKmeans okCompress simHead
            twoChunkText 1).metadata = .err e) :=
  ⟨by decide, by decide, by decide,
    claim_C1 failOnB okKmeans okCompress simHead twoChunkText 1
      (List.replicate 300 'b' ++ ['.']) (by decide) (by decide)⟩

/-- C2 counterexample: the Chunker maps the empty text to the single chunk
`"."` (not to the empty sequence), and `summarize` on empty input returns a
failure result caused by the division by zero in the compression-ratio
computation (not a success with `numChunks = 0`). -/
theorem claim_C2_counterexample :
    chunk_text [] 512 = [['.']] ∧ chunk_text [] 512 ≠ [] ∧
      (summarize okEmbed okKmeans okCompress simHead [] 1).metadata =
        .err "division by zero".data ∧
      (summarize okEmbed okKmeans okCompress simHead [] 1).metadata.isErr =
        true := by decide

/-- C2 (amended): for empty input the Chunker emits the single chunk `"."`,
and `summarize` returns a failure SummaryResult (empty summary plus an error)
whatever the capabilities do: if per-chunk processing survives, the
compression-ratio computation divides by `len(text) = 0`. -/
theorem claim_C2 (E : Str → Except Str Vec)
    (K : Nat → List Vec → Except Str (List Nat × List Vec))
    (C : Str → Except Str Str) (S : Vec → Vec → ℚ) (r : ℚ) :
    chunk_text [] 512 = [['.']] ∧
      (summarize E K C S [] r).summary = [] ∧
      (summarize E K C S [] r).metadata.isErr = true := by
  refine ⟨by decide, ?_⟩
  cases hrc : runChunks (processChunk E K C S r) (chunk_text [] 512) with
  | ok ss =>
    have hsum : summarize E K C S [] r =
        ⟨[], .err "division by zero".data⟩ := by
      simp only [summarize]
      rw [hrc]
      rfl
    rw [hsum]
    exact ⟨rfl, rfl⟩
  | error e =>
    have hsum : summarize E K C S [] r = ⟨[], .err e⟩ := by
      simp only [summarize]
      rw [hrc]
      rfl
    rw [hsum]
    exact ⟨rfl, rfl⟩

/-- C3 counterexample: `summarize` performs no validation of
`compressionRatio`; with ratio `0` it produces a successful summary instead
of an `InputValidationFailure`. -/
theorem claim_C3_counterexample :
    (summarize okEmbed okKmeans okCompress simHead "hello".data 0).summary =
        "hello.".data ∧
      (summarize okEmbed okKmeans okCompress simHead "hello".data 0).metadata.isErr
        = false := by decide

/-- C3 (amended): `summarize` never validates `compressionRatio`: for every
ratio — including `0` and values above `1` — the pipeline runs and (with
succeeding capabilities) returns a success result, because the computed
target count `max(1, int(n*ratio))` is always at least 1. -/
theorem claim_C3 (r : ℚ) :
    (summarize okEmbed okKmeans okCompress simHead "hello".data r).summary =
        "hello.".data ∧
      (summarize okEmbed okKmeans okCompress simHead "hello".data r).metadata.isErr
        = false := by
  have hs : splitDot "hello.".data = ["hello.".data] := by decide
  have hsel : select_important_sentences okKmeans simHead ["hello.".data] [[1]]
      (targetCount 1 r) = .ok ["hello.".data] := by
    unfold select_important_sentences
    rw [if_pos (by simpa using one_le_targetCount 1 r)]
  have hp : processChunk okEmbed okKmeans okCompress simHead r "hello.".data =
      .ok "hello.".data := by
    simp only [processChunk, hs, get_sentence_embeddings, okEmbed,
      except_bind_ok, List.length_cons, List.length_nil, hsel, joinSpace,
      okCompress]
  have hc : chunk_text "hello".data 512 = ["hello.".data] := by decide
  have hrc : runChunks (processChunk okEmbed okKmeans okCompress simHead r)
      (chunk_text "hello".data 512) = .ok ["hello.".data] := by
    rw [hc]
    simp only [runChunks, hp, except_bind_ok]
  constructor
  · show (summarize okEmbed okKmeans okCompress simHead "hello".data r).summary =
      "hello.".data
    simp only [summarize]
    rw [hrc]
    rfl
  · show (summarize okEmbed okKmeans okCompress simHead
        "hello".data r).metadata.isErr = false
    simp only [summarize]
    rw [hrc]
    rfl

/-- C4 counterexample: with `maxChunkSize = 5` and text `"abcde"` the single
emitted chunk `"abcde."` has character length 6 > 5, although the only
sentence (`"abcde"`, length 5) does not alone exceed the budget. -/
theorem claim_C4_counterexample :
    chunk_text "abcde".data 5 = ["abcde.".data] ∧
      ¬ (("abcde.".data : Str).length ≤ 5) ∧
      splitDot "abcde".data = ["abcde".data] ∧
      ("abcde".data : Str).length ≤ 5 := by decide

/-- C4 (amended): every chunk is the flush of a non-empty sentence group
whose raw sentence lengths (excluding the `'. '` delimiters and trailing `'.'`
the flush re-inserts) sum to at most `maxChunkSize`, except a group formed
from a single sentence that alone exceeds `maxChunkSize`. -/
theorem claim_C4 (text : Str) (m : Nat) (c : Str) (hc : c ∈ chunk_text text m) :
    ∃ g, g ≠ [] ∧ c = flushChunk g ∧
      ((g.map List.length).sum ≤ m ∨ ∃ s, g = [s] ∧ m < s.length) := by
  rw [chunk_text_eq_map] at hc
  obtain ⟨g, hg, rfl⟩ := List.mem_map.1 hc
  obtain ⟨h1, h2⟩ := chunkGroups_good text m g hg
  exact ⟨g, h1, rfl, h2⟩

theorem claim_C4_witness :
    ("ab. cd.".data ∈ chunk_text "ab. cd".data 5) ∧
      ∃ g, g ≠ [] ∧ ("ab. cd.".data : Str) = flushChunk g ∧
        ((g.map List.length).sum ≤ 5 ∨ ∃ s, g = [s] ∧ 5 < s.length) :=
  ⟨by decide, claim_C4 "ab. cd".data 5 "ab. cd.".data (by decide)⟩

/-- C5: the chunks are exactly the flushes of a partition of the sentence
sequence: mapping `flushChunk` over the Chunker's sentence groups yields the
chunks, and flattening those groups restores `text.split('. ')` — so modulo
the re-inserted delimiters the chunks reconstruct the original sentence
sequence. -/
theorem claim_C5 (text : Str) (m : Nat) (h : text ≠ []) :
    chunk_text text m = (chunkGroups text m).map flushChunk ∧
      (chunkGroups text m).flatten = splitDot text :=
  ⟨chunk_text_eq_map text m, chunkGroups_flatten text m⟩

theorem claim_C5_witness :
    ("ab. cd".data ≠ ([] : Str)) ∧
      (chunk_text "ab. cd".data 5 =
          (chunkGroups "ab. cd".data 5).map flushChunk ∧
        (chunkGroups "ab. cd".data 5).flatten = splitDot "ab. cd".data) :=
  ⟨by decide, claim_C5 "ab. cd".data 5 (by decide)⟩

/-- C9 counterexample: for the single 120-character sentence and
`maxChunkSize = 50`, the emitted chunk does not have length 120. -/
theorem claim_C9_counterexample :
    ¬ ((chunk_text sentence120 50).map List.length = [120]) := by decide

/-- C9 (amended): the Chunker emits exactly one chunk — the 120-character
sentence plus the appended `'.'` — of character length 121 (exceeding 50),
and no error is raised (the model is total). -/
theorem claim_C9 :
    chunk_text sentence120 50 = [sentence120 ++ ['.']] ∧
      (sentence120 ++ ['.']).length = 121 := by decide

/-- C10 counterexample: the chunk `"hi."` produced from the input
`"hi. there"` (which lacks a trailing period) is a verbatim prefix — hence a
verbatim substring — of that input. -/
theorem claim_C10_counterexample :
    "hi.".data ∈ chunk_text "hi. there".data 2 ∧
      ("hi.".data : Str).isPrefixOf "hi. there".data = true ∧
      ("hi. there".data : Str).getLast? ≠ some '.' := by decide

/-- C10 (amended): every chunk the Chunker emits ends with `'.'` — a period
is appended to every flushed chunk, even when the input text does not end
with the delimiter. -/
theorem claim_C10 (text : Str) (m : Nat) (c : Str)
    (hc : c ∈ chunk_text text m) : ∃ p : Str, c = p ++ ['.'] := by
  rw [chunk_text_eq_map] at hc
  obtain ⟨g, _, rfl⟩ := List.mem_map.1 hc
  exact ⟨joinDot g, rfl⟩

theorem claim_C10_witness :
    ("there.".data ∈ chunk_text "hi. there".data 2) ∧
      ∃ p : Str, ("there.".data : Str) = p ++ ['.'] :=
  ⟨by decide, claim_C10 "hi. there".data 2 "there.".data (by decide)⟩

/-- C6: when there are at most `targetCount` sentences, the Selector returns
exactly the input sentence list, unchanged and in original order, and performs
no clustering — the result is the same for every clustering capability,
including one that always raises. -/
theorem claim_C6 (K : Nat → List Vec → Except Str (List Nat × List Vec))
    (S : Vec → Vec → ℚ) (sentences : List Str) (embeddings : List Vec)
    (k : Nat) (h : sentences.length ≤ k) :
    select_important_sentences K S sentences embeddings k = .ok sentences := by
  unfold select_important_sentences
  rw [if_pos h]

theorem claim_C6_witness :
    (["a".data, "b".data] : List Str).length ≤ 3 ∧
      select_important_sentences
        (fun _ _ => .error "clustering backend unavailable".data) simHead
        ["a".data, "b".data] [[1], [2]] 3 = .ok ["a".data, "b".data] :=
  ⟨by decide,
    claim_C6 (fun _ _ => .error "clustering backend unavailable".data) simHead
      ["a".data, "b".data] [[1], [2]] 3 (by decide)⟩

theorem intTruncMul_eq_floor (n : Nat) (r : ℚ) (hr : 0 ≤ r) :
    intTruncMul n r = ⌊(n : ℚ) * r⌋ := by
  have ha : 0 ≤ (n : Int) * r.num :=
    mul_nonneg (Int.natCast_nonneg n) (Rat.num_nonneg.2 hr)
  have hfloor : ⌊(n : ℚ) * r⌋ = ((n : Int) * r.num) / ((r.den : ℕ) : Int) := by
    rw [show (n : ℚ) * r = (((n : Int) * r.num : Int) : ℚ) / ((r.den : ℕ) : ℚ) by
      push_cast
      rw [mul_div_assoc, Rat.num_div_den]]
    exact Rat.floor_intCast_div_natCast _ _
  rw [intTruncMul, hfloor, Int.tdiv_eq_ediv ha (Int.natCast_nonneg r.den)]

/-- C8: the per-chunk target representative count computed on line 169 of
`summarize` equals `max(1, floor(n * ratio))` for every sentence count
`n ≥ 1` and every ratio in `(0, 1]`, and in particular is always at least 1.
(The float product of the source is modelled as the exact rational product.) -/
theorem claim_C8 (n : Nat) (r : ℚ) (hn : 1 ≤ n) (h0 : 0 < r) (h1 : r ≤ 1) :
    (targetCount n r : Int) = max 1 ⌊(n : ℚ) * r⌋ ∧ 1 ≤ targetCount n r := by
  refine ⟨?_, one_le_targetCount n r⟩
  rw [targetCount, intTruncMul_eq_floor n r h0.le,
    Int.toNat_of_nonneg (le_trans (by norm_num) (le_max_left 1 ⌊(n : ℚ) * r⌋))]

theorem claim_C8_witness :
    1 ≤ 3 ∧ (0 : ℚ) < 1 ∧ (1 : ℚ) ≤ 1 ∧
      ((targetCount 3 1 : Int) = max 1 ⌊(3 : ℚ) * 1⌋ ∧ 1 ≤ targetCount 3 1) :=
  ⟨by decide, by decide, by decide,
    claim_C8 3 1 (by decide) (by decide) (by decide)⟩

theorem le_foldl_max : ∀ (xs : List ℚ) (b : ℚ), b ≤ xs.foldl max b := by
  intro xs
  induction xs with
  | nil => intro b; exact le_refl b
  | cons x xs ih =>
    intro b
    exact le_trans (le_max_left b x) (ih (max b x))

theorem mem_le_foldl_max : ∀ (xs : List ℚ) (b x : ℚ), x ∈ xs → x ≤ xs.foldl max b := by
  intro xs
  induction xs with
  | nil => intro b x hx; cases hx
  | cons y ys ih =>
    intro b x hx
    rcases List.mem_cons.1 hx with rfl | hx
    · exact le_trans (le_max_right b x) (le_foldl_max ys (max b x))
    · exact ih (max b y) x hx

theorem foldl_max_mem : ∀ (xs : List ℚ) (b : ℚ),
    xs.foldl max b = b ∨ xs.foldl max b ∈ xs := by
  intro xs
  induction xs with
  | nil => intro b; exact Or.inl rfl
  | cons y ys ih =>
    intro b
    rw [List.foldl_cons]
    rcases ih (max b y) with h | h
    · rcases max_choice b y with hb | hb
      · exact Or.inl (by rw [h, hb])
      · exact Or.inr (by rw [h, hb]; exact List.mem_cons_self y ys)
    · exact Or.inr (List.mem_cons_of_mem y h)

theorem le_listMax (l : List ℚ) (x : ℚ) (hx : x ∈ l) : x ≤ listMax l := by
  cases l with
  | nil => cases hx
  | cons y ys =>
    rcases List.mem_cons.1 hx with rfl | hx
    · exact le_foldl_max ys x
    · exact mem_le_foldl_max ys y x hx

theorem listMax_mem (l : List ℚ) (h : l ≠ []) : listMax l ∈ l := by
  cases l with
  | nil => exact absurd rfl h
  | cons y ys =>
    rcases foldl_max_mem ys y with hm | hm
    · rw [listMax, hm]; exact List.mem_cons_self y ys
    · exact List.mem_cons_of_mem y hm

theorem findIdx_map_comp {α β : Type} (f : α → β) (p : β → Bool) :
    ∀ l : List α, (l.map f).findIdx p = l.findIdx (fun x => p (f x)) := by
  intro l
  induction l with
  | nil => rfl
  | cons a l ih =>
    by_cases h : p (f a) <;> simp [List.findIdx_cons, h, ih]

theorem getD_map {α β : Type} (g : α → β) (d : β) (d0 : α) :
    ∀ (l : List α) (j : Nat), j < l.length →
      (l.map g).getD j d = g (l.getD j d0) := by
  intro l
  induction l with
  | nil => intro j hj; cases hj
  | cons a l ih =>
    intro j hj
    cases j with
    | zero => rfl
    | succ j =>
      simp only [List.map_cons, List.getD_cons_succ]
      exact ih j (by simpa using hj)

theorem getD_findIdx_eq_filter_head {α : Type} (p : α → Bool) (d : α) :
    ∀ (l : List α), (∃ x ∈ l, p x = true) →
      ∀ (q : α) (t : List α), l.filter p = q :: t →
        l.getD (l.findIdx p) d = q := by
  intro l
  induction l with
  | nil => rintro ⟨x, hx, -⟩; cases hx
  | cons a l ih =>
    rintro ⟨x, hx, hpx⟩ q t hfil
    by_cases ha : p a = true
    · rw [List.filter_cons_of_pos ha] at hfil
      obtain ⟨rfl, -⟩ := List.cons.inj hfil
      simp [List.findIdx_cons, ha]
    · rw [List.filter_cons_of_neg ha] at hfil
      have hfi : (a :: l).findIdx p = l.findIdx p + 1 := by
        simp [List.findIdx_cons, ha]
      rw [hfi, List.getD_cons_succ]
      refine ih ?_ q t hfil
      rcases List.mem_cons.1 hx with rfl | h
      · exact absurd hpx ha
      · exact ⟨x, h, hpx⟩

theorem leastIdx_mem : ∀ (l : List (Nat × Str × Vec)) (q : Nat × Str × Vec),
    leastIdx l = some q → q ∈ l := by
  intro l
  induction l with
  | nil => intro q h; cases h
  | cons p rest ih =>
    intro q h
    cases hr : leastIdx rest with
    | none =>
      simp only [leastIdx, hr, Option.some.injEq] at h
      subst h
      exact List.mem_cons_self _ _
    | some q' =>
      simp only [leastIdx, hr] at h
      by_cases hlt : q'.1 < p.1
      · rw [if_pos hlt, Option.some.injEq] at h
        subst h
        exact List.mem_cons_of_mem p (ih q' hr)
      · rw [if_neg hlt, Option.some.injEq] at h
        subst h
        exact List.mem_cons_self _ _

theorem leastIdx_of_pairwise :
    ∀ (l : List (Nat × Str × Vec)),
      List.Pairwise (fun a b => a.1 < b.1) l →
      leastIdx l = l.head? := by
  intro l
  induction l with
  | nil => intro _; rfl
  | cons p rest ih =>
    intro hpw
    cases hr : leastIdx rest with
    | none =>
      simp only [leastIdx, hr]
      rfl
    | some q =>
      have hq : q ∈ rest := leastIdx_mem rest q hr
      have hlt : p.1 < q.1 := (List.pairwise_cons.1 hpw).1 q hq
      simp only [leastIdx, hr]
      rw [if_neg (show ¬ q.1 < p.1 by omega)]
      rfl

theorem clusterMembers_sentences (i : Nat) :
    ∀ (clusters : List Nat) (sentences : List Str) (embeddings : List Vec)
      (j0 : Nat), clusters.length = sentences.length →
      clusters.length = embeddings.length →
      ((clusters.zip sentences).filter (fun p => p.1 == i)).map (fun p => p.2) =
        (clusterMembersIdx i clusters sentences embeddings j0).map
          (fun m => m.2.1) := by
  intro clusters
  induction clusters with
  | nil => intro sentences embeddings j0 h1 h2; simp [clusterMembersIdx]
  | cons c cl ih =>
    intro sentences embeddings j0 h1 h2
    cases sentences with
    | nil => simp at h1
    | cons s ss =>
      cases embeddings with
      | nil => simp at h2
      | cons e es =>
        simp only [List.length_cons, Nat.add_right_cancel_iff] at h1 h2
        simp only [List.zip_cons_cons, clusterMembersIdx, List.filter_cons]
        by_cases hc : (c == i) = true
        · rw [if_pos hc, if_pos hc]
          simp only [List.map_cons]
          rw [ih ss es (j0 + 1) h1 h2]
        · rw [if_neg hc, if_neg hc]
          exact ih ss es (j0 + 1) h1 h2

theorem clusterMembers_embeddings (i : Nat) :
    ∀ (clusters : List Nat) (sentences : List Str) (embeddings : List Vec)
      (j0 : Nat), clusters.length = sentences.length →
      clusters.length = embeddings.length →
      ((clusters.zip embeddings).filter (fun p => p.1 == i)).map (fun p => p.2) =
        (clusterMembersIdx i clusters sentences embeddings j0).map
          (fun m => m.2.2) := by
  intro clusters
  induction clusters with
  | nil => intro sentences embeddings j0 h1 h2; simp [clusterMembersIdx]
  | cons c cl ih =>
    intro sentences embeddings j0 h1 h2
    cases sentences with
    | nil => simp at h1
    | cons s ss =>
      cases embeddings with
      | nil => simp at h2
      | cons e es =>
        simp only [List.length_cons, Nat.add_right_cancel_iff] at h1 h2
        simp only [List.zip_cons_cons, clusterMembersIdx, List.filter_cons]
        by_cases hc : (c == i) = true
        · rw [if_pos hc, if_pos hc]
          simp only [List.map_cons]
          rw [ih ss es (j0 + 1) h1 h2]
        · rw [if_neg hc, if_neg hc]
          exact ih ss es (j0 + 1) h1 h2

theorem clusterMembersIdx_le (i : Nat) :
    ∀ (clusters : List Nat) (sentences : List Str) (embeddings : List Vec)
      (j0 : Nat),
      ∀ m ∈ clusterMembersIdx i clusters sentences embeddings j0, j0 ≤ m.1 := by
  intro clusters
  induction clusters with
  | nil => intro sentences embeddings j0 m hm; simp [clusterMembersIdx] at hm
  | cons c cl ih =>
    intro sentences embeddings j0 m hm
    cases sentences with
    | nil => simp [clusterMembersIdx] at hm
    | cons s ss =>
      cases embeddings with
      | nil => simp [clusterMembersIdx] at hm
      | cons e es =>
        rw [clusterMembersIdx] at hm
        by_cases hc : (c == i) = true
        · rw [if_pos hc] at hm
          rcases List.mem_cons.1 hm with rfl | hm
          · exact le_refl j0
          · exact le_trans (Nat.le_succ j0) (ih ss es (j0 + 1) m hm)
        · rw [if_neg hc] at hm
          exact le_trans (Nat.le_succ j0) (ih ss es (j0 + 1) m hm)

theorem clusterMembersIdx_pairwise (i : Nat) :
    ∀ (clusters : List Nat) (sentences : List Str) (embeddings : List Vec)
      (j0 : Nat),
      List.Pairwise (fun a b => a.1 < b.1)
        (clusterMembersIdx i clusters sentences embeddings j0) := by
  intro clusters
  induction clusters with
  | nil => intro sentences embeddings j0; simp [clusterMembersIdx]
  | cons c cl ih =>
    intro sentences embeddings j0
    cases sentences with
    | nil => simp [clusterMembersIdx]
    | cons s ss =>
      cases embeddings with
      | nil => simp [clusterMembersIdx]
      | cons e es =>
        rw [clusterMembersIdx]
        by_cases hc : (c == i) = true
        · rw [if_pos hc]
          refine List.pairwise_cons.2 ⟨?_, ih ss es (j0 + 1)⟩
          intro m hm
          have := clusterMembersIdx_le i cl ss es (j0 + 1) m hm
          omega
        · rw [if_neg hc]
          exact ih ss es (j0 + 1)

theorem foldl_if_append_eq_filterMap {α : Type} (p : Nat → Prop)
    [DecidablePred p] (x : Nat → α) :
    ∀ (l : List Nat) (acc : List α),
      l.foldl (fun a i => if p i then a ++ [x i] else a) acc =
        acc ++ l.filterMap (fun i => if p i then some (x i) else none) := by
  intro l
  induction l with
  | nil => intro acc; simp
  | cons j rest ih =>
    intro acc
    by_cases hj : p j <;>
      simp [List.foldl_cons, List.filterMap_cons, hj, ih]

theorem selectCore_eq_filterMap (sim : Vec → Vec → ℚ) (sentences : List Str)
    (embeddings : List Vec) (clusters : List Nat) (centers : List Vec)
    (k : Nat) :
    selectCore sim sentences embeddings clusters centers k =
      (List.range k).filterMap (fun i =>
        let cluster_sentences :=
          ((clusters.zip sentences).filter (fun p => p.1 == i)).map (fun p => p.2)
        let cluster_embeddings :=
          ((clusters.zip embeddings).filter (fun p => p.1 == i)).map (fun p => p.2)
        if 0 < cluster_sentences.length then
          some (cluster_sentences.getD
            (npArgmax (cluster_embeddings.map (fun e => sim (centers.getD i []) e)))
            [])
        else none) :=
  foldl_if_append_eq_filterMap
    (fun i => 0 <
      (((clusters.zip sentences).filter (fun p : Nat × Str => p.1 == i)).map
        (fun p : Nat × Str => p.2)).length)
    (fun i =>
      (((clusters.zip sentences).filter (fun p : Nat × Str => p.1 == i)).map
        (fun p : Nat × Str => p.2)).getD
        (npArgmax
          ((((clusters.zip embeddings).filter
            (fun p : Nat × Vec => p.1 == i)).map (fun p : Nat × Vec => p.2)).map
            (fun e => sim (centers.getD i []) e))) [])
    (List.range k) []

theorem argmax_pick_eq (f : Nat × Str × Vec → ℚ)
    (members : List (Nat × Str × Vec)) (hne : members ≠ [])
    (hpw : List.Pairwise (fun a b => a.1 < b.1) members) :
    ∃ q, leastIdx (members.filter
        (fun m => decide (f m = listMax (members.map f)))) = some q ∧
      (members.map (fun m => m.2.1)).getD (npArgmax (members.map f)) [] =
        q.2.1 := by
  set M := listMax (members.map f) with hM
  have hmapne : members.map f ≠ [] := by
    intro h
    exact hne (List.map_eq_nil_iff.1 h)
  have hMmem : M ∈ members.map f := listMax_mem _ hmapne
  obtain ⟨m0, hm0, hfm0⟩ := List.mem_map.1 hMmem
  have hfilne : members.filter (fun m => decide (f m = M)) ≠ [] := by
    intro h
    have := List.filter_eq_nil_iff.1 h m0 hm0
    simp [hfm0] at this
  have hpwf : List.Pairwise (fun a b => a.1 < b.1)
      (members.filter (fun m => decide (f m = M))) := hpw.filter _
  cases hfil : members.filter (fun m => decide (f m = M)) with
  | nil => exact absurd hfil hfilne
  | cons q t =>
    rw [hfil] at hpwf
    refine ⟨q, ?_, ?_⟩
    · rw [leastIdx_of_pairwise _ hpwf]
      rfl
    · have hargmax : npArgmax (members.map f) =
          members.findIdx (fun m => decide (M ≤ f m)) := by
        rw [npArgmax, ← hM, findIdx_map_comp]
      have hex : ∃ m ∈ members, (fun m => decide (M ≤ f m)) m = true :=
        ⟨m0, hm0, by simp [hfm0]⟩
      have hlt : members.findIdx (fun m => decide (M ≤ f m)) < members.length :=
        List.findIdx_lt_length.2 hex
      have hfeq : members.filter (fun m => decide (M ≤ f m)) =
          members.filter (fun m => decide (f m = M)) := by
        apply List.filter_congr
        intro m hm
        have hle : f m ≤ M := le_listMax _ _ (List.mem_map_of_mem f hm)
        exact decide_eq_decide.2
          ⟨fun h2 => le_antisymm hle h2, fun h2 => le_of_eq h2.symm⟩
      rw [hargmax, getD_map (fun m => m.2.1) [] q members _ hlt,
        getD_findIdx_eq_filter_head _ q members hex q t (hfeq.trans hfil)]

theorem selectCore_eq_specSelect (sim : Vec → Vec → ℚ) (sentences : List Str)
    (embeddings : List Vec) (clusters : List Nat) (centers : List Vec) (k : Nat)
    (h1 : clusters.length = sentences.length)
    (h2 : clusters.length = embeddings.length) :
    selectCore sim sentences embeddings clusters centers k =
      specSelect sim sentences embeddings clusters centers k := by
  simp only [selectCore_eq_filterMap, specSelect]
  congr 1
  funext i
  have hcs := clusterMembers_sentences i clusters sentences embeddings 0 h1 h2
  have hce := clusterMembers_embeddings i clusters sentences embeddings 0 h1 h2
  simp only [hcs, hce, List.map_map, Function.comp_def]
  have hpw := clusterMembersIdx_pairwise i clusters sentences embeddings 0
  cases hm : clusterMembersIdx i clusters sentences embeddings 0 with
  | nil => simp [hm, leastIdx]
  | cons m0 mt =>
    rw [hm] at hpw
    obtain ⟨q, hq, hpick⟩ :=
      argmax_pick_eq (fun m => sim (centers.getD i []) m.2.2) (m0 :: mt)
        (List.cons_ne_nil m0 mt) hpw
    rw [if_pos (by simp), hpick, hq]
    rfl

/-- C7: when `len(sentences) > targetCount` and the clustering capability
returns an assignment and centers, `_select_important_sentences` iterates
cluster indices `0..targetCount-1` in order and, for each non-empty cluster,
emits the member sentence of maximum similarity to the cluster center (numpy
`argmax` takes the first maximum, i.e. the lowest original sentence index),
skipping empty clusters — the spec-worded `specSelect`.  The output is thus
in cluster-index order and may be shorter than `targetCount`. -/
theorem claim_C7 (K : Nat → List Vec → Except Str (List Nat × List Vec))
    (S : Vec → Vec → ℚ) (sentences : List Str) (embeddings : List Vec)
    (clusters : List Nat) (centers : List Vec) (k : Nat)
    (hlen : k < sentences.length)
    (h1 : clusters.length = sentences.length)
    (h2 : clusters.length = embeddings.length)
    (hK : K k embeddings = .ok (clusters, centers)) :
    select_important_sentences K S sentences embeddings k =
      .ok (specSelect S sentences embeddings clusters centers k) := by
  unfold select_important_sentences
  rw [if_neg (not_le.2 hlen), hK, except_bind_ok]
  exact congrArg Except.ok
    (selectCore_eq_specSelect S sentences embeddings clusters centers k h1 h2)

/-- C7 witness: three sentences, two clusters, everything assigned to cluster
0 by the test capability — cluster 1 is empty and is skipped, the output is
the single highest-scoring sentence `"b"` (shorter than `targetCount = 2`). -/
theorem claim_C7_witness :
    (2 < 3 ∧ okKmeans 2 [[1], [3], [2]] =
        (.ok ([0, 0, 0], [[1], [1]]) : Except Str (List Nat × List Vec))) ∧
      select_important_sentences okKmeans simHead
          ["a".data, "b".data, "c".data] [[1], [3], [2]] 2 =
        .ok (specSelect simHead ["a".data, "b".data, "c".data] [[1], [3], [2]]
          [0, 0, 0] [[1], [1]] 2) ∧
      specSelect simHead ["a".data, "b".data, "c".data] [[1], [3], [2]]
          [0, 0, 0] [[1], [1]] 2 = ["b".data] :=
  ⟨⟨by decide, rfl⟩,
    claim_C7 okKmeans simHead ["a".data, "b".data, "c".data] [[1], [3], [2]]
      [0, 0, 0] [[1], [1]] 2 (by decide) (by decide) (by decide) rfl,
    by decide⟩
